import Mathlib

/-!
Verification development for the partial evaluator in src/eval.rs.

The definitions below are a shallow embedding of the evaluator code.
Machine integers (u32/u64/i32/i64) are embedded as Nat, with explicit
reduction modulo 2 ^ 32 or 2 ^ 64 exactly where the Rust code wraps.
Types that the evaluator imports from sibling modules of the repository
that are not present under src (value.rs, state.rs, image.rs,
directive.rs, intrinsics.rs) are modelled from the specification text;
each such definition carries a doc comment starting with
Modelled from the spec. Everything else is translated directly from
src/eval.rs.
-/

namespace Weval

/-- A block id in a function body (waffle collaborator, an entity index). -/
abbrev Block := Nat

/-- An SSA value id (waffle collaborator, an entity index). -/
abbrev Value := Nat

/-- A context id: an index into the interned context arena. Index 0 is the
distinguished root context. -/
abbrev Context := Nat

/-- Modelled from the spec: ValueTags is a bitset over a small fixed
vocabulary; the only tag used by the core is const_memory
(value.rs is not under src). -/
structure ValueTags where
  constMemory : Bool
deriving DecidableEq

/-- Modelled from the spec: the empty tag set (ValueTags::default()). -/
def ValueTags.default : ValueTags := ⟨false⟩

/-- Modelled from the spec: the singleton const_memory tag set
(ValueTags::const_memory()). -/
def ValueTags.constMemoryTag : ValueTags := ⟨true⟩

/-- Modelled from the spec: meet(a,b) = a & b on tag bitsets. -/
def ValueTags.meet (a b : ValueTags) : ValueTags := ⟨a.constMemory && b.constMemory⟩

/-- Modelled from the spec: set union of tag bitsets, used by with_tags. -/
def ValueTags.join (a b : ValueTags) : ValueTags := ⟨a.constMemory || b.constMemory⟩

/-- Modelled from the spec: bitset containment test, t.contains(other). -/
def ValueTags.contains (a b : ValueTags) : Bool := !b.constMemory || a.constMemory

/-- Modelled from the spec: a WebAssembly IR constant of one of
i32, i64, f32, f64. The payload is the raw bit pattern as a Nat
(f32 and f64 payloads are never interpreted by the core). -/
inductive WasmVal where
  | I32 (k : Nat)
  | I64 (k : Nat)
  | F32 (k : Nat)
  | F64 (k : Nat)
deriving DecidableEq

/-- Modelled from the spec: truthiness of a constant (nonzero bit pattern). -/
def WasmVal.isTruthy : WasmVal → Bool
  | .I32 k => k ≠ 0
  | .I64 k => k ≠ 0
  | .F32 k => k ≠ 0
  | .F64 k => k ≠ 0

/-- Modelled from the spec: the three-point abstract value lattice with
tag bits (value.rs is not under src). -/
inductive AbstractValue where
  | Top
  | Runtime (tags : ValueTags)
  | Concrete (v : WasmVal) (tags : ValueTags)
deriving DecidableEq

instance : Inhabited AbstractValue := ⟨.Runtime ValueTags.default⟩

/-- Modelled from the spec: the meet. Concrete(a,_) meet Concrete(b,_) is
Concrete(a, meet tags) if a = b, else Runtime(meet tags); Runtime meet
anything is Runtime; Top meet x is x. -/
def AbstractValue.meet : AbstractValue → AbstractValue → AbstractValue
  | .Top, x => x
  | x, .Top => x
  | .Runtime t, .Runtime u => .Runtime (t.meet u)
  | .Runtime t, .Concrete _ u => .Runtime (t.meet u)
  | .Concrete _ t, .Runtime u => .Runtime (t.meet u)
  | .Concrete a t, .Concrete b u =>
      if a = b then .Concrete a (t.meet u) else .Runtime (t.meet u)

/-- Modelled from the spec: the tag bits carried by an abstract value. -/
def AbstractValue.tags : AbstractValue → ValueTags
  | .Top => ValueTags.default
  | .Runtime t => t
  | .Concrete _ t => t

/-- Modelled from the spec: with_tags adds tag bits to an abstract value. -/
def AbstractValue.withTags : AbstractValue → ValueTags → AbstractValue
  | .Top, _ => .Top
  | .Runtime t, u => .Runtime (t.join u)
  | .Concrete v t, u => .Concrete v (t.join u)

/-- Modelled from the spec: is_const_u32 extracts a concrete i32 payload. -/
def AbstractValue.isConstU32 : AbstractValue → Option Nat
  | .Concrete (.I32 k) _ => some k
  | _ => none

/-- Modelled from the spec: is_const_truthy reports the truthiness of a
concrete value and none otherwise. -/
def AbstractValue.isConstTruthy : AbstractValue → Option Bool
  | .Concrete v _ => some v.isTruthy
  | _ => none

/-- Modelled from the spec: the staged program counter field of the flow
state. In the code the Some variant carries an Option u64: the staged
value is Some(None) when loop_pc32_update saw a non-constant argument
(see Evaluator::abstract_eval_intrinsic and ContextElem). -/
inductive StagedPC where
  | None
  | Some (pc : Option Nat)
  | Conflict
deriving DecidableEq

/-- Modelled from the spec: StagedPC join. None meet x = x,
Some(a) meet Some(a) = Some(a), otherwise Conflict. -/
def StagedPC.meet : StagedPC → StagedPC → StagedPC
  | .None, x => x
  | x, .None => x
  | .Some a, .Some b => if a = b then .Some a else .Conflict
  | _, _ => .Conflict

/-- Insert with replacement into an association list keyed by Nat
(HashMap::insert semantics). -/
def alistInsert {β : Type} (l : List (Nat × β)) (k : Nat) (v : β) : List (Nat × β) :=
  match l with
  | [] => [(k, v)]
  | (k0, v0) :: rest => if k0 = k then (k, v) :: rest else (k0, v0) :: alistInsert rest k v

/-- Lookup in an association list keyed by Nat. -/
def alistGet {β : Type} (l : List (Nat × β)) (k : Nat) : Option β :=
  (l.find? (fun p => p.1 == k)).map (fun p => p.2)

/-- Modelled from the spec: the flow-sensitive state carried along edges:
a map from global index to abstract value, plus the staged PC
(state.rs is not under src). -/
structure ProgPointState where
  globals : List (Nat × AbstractValue)
  stagedPc : StagedPC
deriving DecidableEq

/-- Modelled from the spec: meet of two flow states intersects the global
maps (a key missing on either side is dropped, reading back as runtime)
and joins the staged PCs. -/
def meetGlobals (a b : List (Nat × AbstractValue)) : List (Nat × AbstractValue) :=
  a.filterMap (fun p => (alistGet b p.1).map (fun q => (p.1, p.2.meet q)))

/-- Modelled from the spec: ProgPointState::meet_with returns the met
state together with a changed flag. -/
def ProgPointState.meetWith (cur incoming : ProgPointState) : ProgPointState × Bool :=
  let next : ProgPointState :=
    { globals := meetGlobals cur.globals incoming.globals
      stagedPc := cur.stagedPc.meet incoming.stagedPc }
  (next, decide (next ≠ cur))

/-- Modelled from the spec: a context tree element, a pair of an optional
concrete pc and the loop header block. -/
abbrev ContextElem := Option Nat × Block

/-- A program point state: the current context plus the flow state. -/
structure PointState where
  context : Context
  flow : ProgPointState
deriving DecidableEq

/-- Two's-complement reading of a w-bit pattern as an integer. -/
def toSigned (w k : Nat) : Int :=
  if k % 2 ^ w < 2 ^ (w - 1) then (k % 2 ^ w : Int) else (k % 2 ^ w : Int) - 2 ^ w

/-- Reduce an integer to its w-bit two's-complement bit pattern. -/
def ofSigned (w : Nat) (i : Int) : Nat := (i % (2 ^ w : Int)).toNat

/-- Sign-extend the low inW bits of a pattern to an outW-bit pattern. -/
def sext (inW outW k : Nat) : Nat :=
  let b := k % 2 ^ inW
  if b < 2 ^ (inW - 1) then b else b + (2 ^ outW - 2 ^ inW)

/-- Zero-extend (truncate to) the low inW bits of a pattern. -/
def zext (inW k : Nat) : Nat := k % 2 ^ inW

/-- Rust wrapping_shl on a w-bit integer: the shift amount is masked to
w bits and the shifted-out high bits are discarded. -/
def wrappingShl (w k s : Nat) : Nat := (k <<< (s % w)) % 2 ^ w

/-- Rust wrapping_shr on a w-bit unsigned integer: the shift amount is
masked to w bits. -/
def wrappingShr (w k s : Nat) : Nat := k >>> (s % w)

/-- Rust arithmetic wrapping_shr on a w-bit signed integer. -/
def wrappingShrS (w k s : Nat) : Nat := ofSigned w ((toSigned w k).fdiv (2 ^ (s % w)))

/-- The w-bit left rotation of k by r (r taken modulo w): the bits shifted
out at the top re-enter at the bottom. -/
def rotLeft (w k r : Nat) : Nat := ((k <<< (r % w)) % 2 ^ w) ||| (k >>> (w - r % w))

/-- The w-bit right rotation of k by r (r taken modulo w): the bits shifted
out at the bottom re-enter at the top. -/
def rotRight (w k r : Nat) : Nat := (k >>> (r % w)) ||| ((k <<< (w - r % w)) % 2 ^ w)

/-- u32/u64 leading_zeros: w minus the bit length. -/
def leadingZeros (w k : Nat) : Nat := w - Nat.size k

/-- u32/u64 trailing_zeros (w for the zero pattern). -/
def trailingZeros (w k : Nat) : Nat :=
  (((List.range w).find? (fun i => k.testBit i)).getD w)

/-- u32/u64 count_ones on the low w bits. -/
def countOnes (w k : Nat) : Nat := ((List.range w).filter (fun i => k.testBit i)).length

/-- Value types of the waffle IR (collaborator). -/
inductive Ty where
  | I32
  | I64
  | F32
  | F64
deriving DecidableEq

/-- The static memory argument of a load operator (waffle collaborator):
a memory id and a constant byte offset. -/
structure MemoryArg where
  memory : Nat
  offset : Nat
deriving DecidableEq

/-- The waffle operators handled by the transfer functions of eval.rs.
Operators the transfer table treats as opaque (floating point, SIMD,
stores and so on) are collapsed into the Other constructor, matching the
catch-all arms of the code. -/
inductive Op where
  | Call (functionIndex : Nat)
  | GlobalGet (globalIndex : Nat)
  | GlobalSet (globalIndex : Nat)
  | I32Const (value : Nat)
  | I64Const (value : Nat)
  | F32Const (value : Nat)
  | F64Const (value : Nat)
  | I32Eqz
  | I64Eqz
  | I32Extend8S
  | I32Extend16S
  | I64Extend8S
  | I64Extend16S
  | I64Extend32S
  | I32Clz
  | I64Clz
  | I32Ctz
  | I64Ctz
  | I32Popcnt
  | I64Popcnt
  | I32WrapI64
  | I64ExtendI32S
  | I64ExtendI32U
  | I32Load (memory : MemoryArg)
  | I32Load8U (memory : MemoryArg)
  | I32Load8S (memory : MemoryArg)
  | I32Load16U (memory : MemoryArg)
  | I32Load16S (memory : MemoryArg)
  | I64Load (memory : MemoryArg)
  | I64Load8U (memory : MemoryArg)
  | I64Load8S (memory : MemoryArg)
  | I64Load16U (memory : MemoryArg)
  | I64Load16S (memory : MemoryArg)
  | I64Load32U (memory : MemoryArg)
  | I64Load32S (memory : MemoryArg)
  | I32Eq
  | I32Ne
  | I32LtS
  | I32LtU
  | I32GtS
  | I32GtU
  | I32LeS
  | I32LeU
  | I32GeS
  | I32GeU
  | I64Eq
  | I64Ne
  | I64LtS
  | I64LtU
  | I64GtS
  | I64GtU
  | I64LeS
  | I64LeU
  | I64GeS
  | I64GeU
  | I32Add
  | I32Sub
  | I32Mul
  | I32DivU
  | I32DivS
  | I32RemU
  | I32RemS
  | I32And
  | I32Or
  | I32Xor
  | I32Shl
  | I32ShrU
  | I32ShrS
  | I32Rotl
  | I32Rotr
  | I64Add
  | I64Sub
  | I64Mul
  | I64DivU
  | I64DivS
  | I64RemU
  | I64RemS
  | I64And
  | I64Or
  | I64Xor
  | I64Shl
  | I64ShrU
  | I64ShrS
  | I64Rotl
  | I64Rotr
  | Select
  | TypedSelect (ty : Ty)
  | Other (code : Nat)

/-- Modelled from the spec: the memory image collaborator (image.rs is not
under src). read_size reads size little-endian bytes at an address in a
memory, returning none outside mapped constant regions; main_heap names
the main heap memory; u32Data holds the 32-bit words written back by
write_u32. -/
structure Image where
  readSizeFn : Nat → Nat → Nat → Option Nat
  mainHeapId : Option Nat
  u32Data : Nat → Nat → Option Nat

/-- Modelled from the spec: Image::write_u32 stores a 32-bit value at an
address of a memory. -/
def Image.writeU32 (im : Image) (mem addr value : Nat) : Image :=
  { im with u32Data := fun m a =>
      if m = mem then (if a = addr then some value else im.u32Data m a)
      else im.u32Data m a }

/-- Modelled from the spec: the intrinsic function indices discovered in
the module (intrinsics.rs is not under src). -/
structure Intrinsics where
  assumeConstMemory : Option Nat
  loopPc32Update : Option Nat
  loopHeader : Option Nat

/-- const_operator from eval.rs: the constant-producing operator for a
value of a given type, if any. -/
def constOperator (ty : Ty) (value : WasmVal) : Option Op :=
  match ty, value with
  | .I32, .I32 k => some (.I32Const k)
  | .I64, .I64 k => some (.I64Const k)
  | .F32, .F32 k => some (.F32Const k)
  | .F64, .F64 k => some (.F64Const k)
  | _, _ => none

/-- Evaluator::abstract_eval_intrinsic. Recognizes calls to the
assume_const_memory and loop_pc32_update intrinsic function indices;
returns none when the operator is not such a call. The result pairs the
abstract value with the replacement value, plus the updated point state.
Note that loop_pc32_update overwrites the staged PC unconditionally with
Some of the (optional) concrete argument. -/
def abstractEvalIntrinsic (intrinsics : Intrinsics) (op : Op)
    (abs : List AbstractValue) (values : List Value) (state : PointState) :
    Option ((AbstractValue × Option Value) × PointState) :=
  match op with
  | .Call functionIndex =>
      if some functionIndex = intrinsics.assumeConstMemory then
        some (((abs.headD default).withTags ValueTags.constMemoryTag,
               some (values.headD 0)), state)
      else if some functionIndex = intrinsics.loopPc32Update then
        let pc := (abs.headD default).isConstU32
        some (((abs.headD default), some (values.headD 0)),
              { state with flow := { state.flow with stagedPc := .Some pc } })
      else none
  | _ => none

/-- Evaluator::abstract_eval_nullary: global.get reads the flow state,
constants become Concrete, everything else is runtime. -/
def abstractEvalNullary (op : Op) (state : PointState) : AbstractValue :=
  match op with
  | .GlobalGet g => (alistGet state.flow.globals g).getD (.Runtime ValueTags.default)
  | .I32Const k => .Concrete (.I32 k) ValueTags.default
  | .I64Const k => .Concrete (.I64 k) ValueTags.default
  | .F32Const k => .Concrete (.F32 k) ValueTags.default
  | .F64Const k => .Concrete (.F64 k) ValueTags.default
  | _ => .Runtime ValueTags.default

/-- The load arms of Evaluator::abstract_eval_unary: guarded on the
address tags containing const_memory, read size bytes at k plus the
static offset (u32 addition), convert, carry the address tags; a failed
read or a missing tag degrades to Runtime(default), like the catch-all
arm the code falls through to. The address is the concrete address plus
the static offset cast to u32, with u32 wrap-around. -/
def loadAddr (memory : MemoryArg) (k : Nat) : Nat := (k + zext 32 memory.offset) % 2 ^ 32

/-- The shared body of the load arms of Evaluator::abstract_eval_unary. -/
def evalLoad (image : Image) (memory : MemoryArg) (size : Nat)
    (mk : Nat → WasmVal) (k : Nat) (t : ValueTags) : AbstractValue :=
  if t.contains ValueTags.constMemoryTag then
    match image.readSizeFn memory.memory (loadAddr memory k) size with
    | some data => .Concrete (mk data) t
    | none => .Runtime ValueTags.default
  else .Runtime ValueTags.default

/-- The i32 load arms: conv is the per-opcode extension function. -/
def evalLoadI32 (image : Image) (memory : MemoryArg) (size : Nat)
    (conv : Nat → Nat) (k : Nat) (t : ValueTags) : AbstractValue :=
  evalLoad image memory size (fun data => .I32 (conv data)) k t

/-- The i64 load arms: conv is the per-opcode extension function. -/
def evalLoadI64 (image : Image) (memory : MemoryArg) (size : Nat)
    (conv : Nat → Nat) (k : Nat) (t : ValueTags) : AbstractValue :=
  evalLoad image memory size (fun data => .I64 (conv data)) k t

/-- Evaluator::abstract_eval_unary. global.set updates the flow state;
integer unary operators fold on concrete arguments with wrapping
semantics; loads fold iff the address is a concrete i32 carrying the
const_memory tag; everything else is runtime. -/
def abstractEvalUnary (image : Image) (op : Op) (x : AbstractValue)
    (state : PointState) : AbstractValue × PointState :=
  match op, x with
  | .GlobalSet g, av =>
      (.Runtime ValueTags.default,
       { state with flow := { state.flow with globals := alistInsert state.flow.globals g av } })
  | .I32Eqz, .Concrete (.I32 k) t =>
      (.Concrete (.I32 (if k = 0 then 1 else 0)) t, state)
  | .I64Eqz, .Concrete (.I64 k) t =>
      (.Concrete (.I64 (if k = 0 then 1 else 0)) t, state)
  | .I32Extend8S, .Concrete (.I32 k) t => (.Concrete (.I32 (sext 8 32 k)) t, state)
  | .I32Extend16S, .Concrete (.I32 k) t => (.Concrete (.I32 (sext 16 32 k)) t, state)
  | .I64Extend8S, .Concrete (.I64 k) t => (.Concrete (.I64 (sext 8 64 k)) t, state)
  | .I64Extend16S, .Concrete (.I64 k) t => (.Concrete (.I64 (sext 16 64 k)) t, state)
  | .I64Extend32S, .Concrete (.I64 k) t => (.Concrete (.I64 (sext 32 64 k)) t, state)
  | .I32Clz, .Concrete (.I32 k) t => (.Concrete (.I32 (leadingZeros 32 k)) t, state)
  | .I64Clz, .Concrete (.I64 k) t => (.Concrete (.I64 (leadingZeros 64 k)) t, state)
  | .I32Ctz, .Concrete (.I32 k) t => (.Concrete (.I32 (trailingZeros 32 k)) t, state)
  | .I64Ctz, .Concrete (.I64 k) t => (.Concrete (.I64 (trailingZeros 64 k)) t, state)
  | .I32Popcnt, .Concrete (.I32 k) t => (.Concrete (.I32 (countOnes 32 k)) t, state)
  | .I64Popcnt, .Concrete (.I64 k) t => (.Concrete (.I64 (countOnes 64 k)) t, state)
  | .I32WrapI64, .Concrete (.I64 k) t => (.Concrete (.I32 (zext 32 k)) t, state)
  | .I64ExtendI32S, .Concrete (.I32 k) t => (.Concrete (.I64 (sext 32 64 k)) t, state)
  | .I64ExtendI32U, .Concrete (.I32 k) t => (.Concrete (.I64 k) t, state)
  | .I32Load m, .Concrete (.I32 k) t => (evalLoadI32 image m 4 (zext 32) k t, state)
  | .I32Load8U m, .Concrete (.I32 k) t => (evalLoadI32 image m 1 (zext 8) k t, state)
  | .I32Load8S m, .Concrete (.I32 k) t => (evalLoadI32 image m 1 (sext 8 32) k t, state)
  | .I32Load16U m, .Concrete (.I32 k) t => (evalLoadI32 image m 2 (zext 16) k t, state)
  | .I32Load16S m, .Concrete (.I32 k) t => (evalLoadI32 image m 2 (sext 16 32) k t, state)
  | .I64Load m, .Concrete (.I32 k) t => (evalLoadI64 image m 8 (fun d => d) k t, state)
  | .I64Load8U m, .Concrete (.I32 k) t => (evalLoadI64 image m 1 (zext 8) k t, state)
  | .I64Load8S m, .Concrete (.I32 k) t => (evalLoadI64 image m 1 (sext 8 64) k t, state)
  | .I64Load16U m, .Concrete (.I32 k) t => (evalLoadI64 image m 2 (zext 16) k t, state)
  | .I64Load16S m, .Concrete (.I32 k) t => (evalLoadI64 image m 2 (sext 16 64) k t, state)
  | .I64Load32U m, .Concrete (.I32 k) t => (evalLoadI64 image m 4 (zext 32) k t, state)
  | .I64Load32S m, .Concrete (.I32 k) t => (evalLoadI64 image m 4 (sext 32 64) k t, state)
  | _, _ => (.Runtime ValueTags.default, state)

/-- Bool to bit pattern, for comparison results. -/
def b2n (b : Bool) : Nat := if b then 1 else 0

/-- Evaluator::abstract_eval_binary: integer comparisons and arithmetic on
pairs of concrete values fold with wrapping semantics and tag meet;
division and remainder arms carry the non-zero divisor guard (and for the
signed variants the overflow-pair guard) and fall through to runtime when
the guard fails; everything else is runtime. -/
def abstractEvalBinary (op : Op) (x y : AbstractValue) : AbstractValue :=
  match x, y with
  | .Concrete v1 tag1, .Concrete v2 tag2 =>
      let tags := tag1.meet tag2
      match op, v1, v2 with
      | .I32Eq, .I32 k1, .I32 k2 => .Concrete (.I32 (b2n (k1 = k2))) tags
      | .I32Ne, .I32 k1, .I32 k2 => .Concrete (.I32 (b2n (k1 ≠ k2))) tags
      | .I32LtS, .I32 k1, .I32 k2 => .Concrete (.I32 (b2n (toSigned 32 k1 < toSigned 32 k2))) tags
      | .I32LtU, .I32 k1, .I32 k2 => .Concrete (.I32 (b2n (k1 < k2))) tags
      | .I32GtS, .I32 k1, .I32 k2 => .Concrete (.I32 (b2n (toSigned 32 k2 < toSigned 32 k1))) tags
      | .I32GtU, .I32 k1, .I32 k2 => .Concrete (.I32 (b2n (k2 < k1))) tags
      | .I32LeS, .I32 k1, .I32 k2 => .Concrete (.I32 (b2n (toSigned 32 k1 ≤ toSigned 32 k2))) tags
      | .I32LeU, .I32 k1, .I32 k2 => .Concrete (.I32 (b2n (k1 ≤ k2))) tags
      | .I32GeS, .I32 k1, .I32 k2 => .Concrete (.I32 (b2n (toSigned 32 k2 ≤ toSigned 32 k1))) tags
      | .I32GeU, .I32 k1, .I32 k2 => .Concrete (.I32 (b2n (k2 ≤ k1))) tags
      | .I64Eq, .I64 k1, .I64 k2 => .Concrete (.I64 (b2n (k1 = k2))) tags
      | .I64Ne, .I64 k1, .I64 k2 => .Concrete (.I64 (b2n (k1 ≠ k2))) tags
      | .I64LtS, .I64 k1, .I64 k2 => .Concrete (.I64 (b2n (toSigned 64 k1 < toSigned 64 k2))) tags
      | .I64LtU, .I64 k1, .I64 k2 => .Concrete (.I64 (b2n (k1 < k2))) tags
      | .I64GtS, .I64 k1, .I64 k2 => .Concrete (.I64 (b2n (toSigned 64 k2 < toSigned 64 k1))) tags
      | .I64GtU, .I64 k1, .I64 k2 => .Concrete (.I64 (b2n (k2 < k1))) tags
      | .I64LeS, .I64 k1, .I64 k2 => .Concrete (.I64 (b2n (toSigned 64 k1 ≤ toSigned 64 k2))) tags
      | .I64LeU, .I64 k1, .I64 k2 => .Concrete (.I64 (b2n (k1 ≤ k2))) tags
      | .I64GeS, .I64 k1, .I64 k2 => .Concrete (.I64 (b2n (toSigned 64 k2 ≤ toSigned 64 k1))) tags
      | .I64GeU, .I64 k1, .I64 k2 => .Concrete (.I64 (b2n (k2 ≤ k1))) tags
      | .I32Add, .I32 k1, .I32 k2 => .Concrete (.I32 ((k1 + k2) % 2 ^ 32)) tags
      | .I32Sub, .I32 k1, .I32 k2 => .Concrete (.I32 ((k1 + (2 ^ 32 - k2 % 2 ^ 32)) % 2 ^ 32)) tags
      | .I32Mul, .I32 k1, .I32 k2 => .Concrete (.I32 ((k1 * k2) % 2 ^ 32)) tags
      | .I32DivU, .I32 k1, .I32 k2 =>
          if k2 ≠ 0 then .Concrete (.I32 (k1 / k2)) tags else .Runtime ValueTags.default
      | .I32DivS, .I32 k1, .I32 k2 =>
          if k2 ≠ 0 ∧ (k1 ≠ 0x80000000 ∨ k2 ≠ 0xffffffff) then
            .Concrete (.I32 (ofSigned 32 ((toSigned 32 k1).tdiv (toSigned 32 k2)))) tags
          else .Runtime ValueTags.default
      | .I32RemU, .I32 k1, .I32 k2 =>
          if k2 ≠ 0 then .Concrete (.I32 (k1 % k2)) tags else .Runtime ValueTags.default
      | .I32RemS, .I32 k1, .I32 k2 =>
          if k2 ≠ 0 ∧ (k1 ≠ 0x80000000 ∨ k2 ≠ 0xffffffff) then
            .Concrete (.I32 (ofSigned 32 ((toSigned 32 k1).tmod (toSigned 32 k2)))) tags
          else .Runtime ValueTags.default
      | .I32And, .I32 k1, .I32 k2 => .Concrete (.I32 (k1 &&& k2)) tags
      | .I32Or, .I32 k1, .I32 k2 => .Concrete (.I32 (k1 ||| k2)) tags
      | .I32Xor, .I32 k1, .I32 k2 => .Concrete (.I32 (k1 ^^^ k2)) tags
      | .I32Shl, .I32 k1, .I32 k2 => .Concrete (.I32 (wrappingShl 32 k1 (k2 &&& 0x1f))) tags
      | .I32ShrU, .I32 k1, .I32 k2 => .Concrete (.I32 (wrappingShr 32 k1 (k2 &&& 0x1f))) tags
      | .I32ShrS, .I32 k1, .I32 k2 => .Concrete (.I32 (wrappingShrS 32 k1 (k2 &&& 0x1f))) tags
      | .I32Rotl, .I32 k1, .I32 k2 =>
          let amt := k2 &&& 0x1f
          .Concrete (.I32 (wrappingShl 32 k1 amt ||| wrappingShr 32 k1 (32 - amt))) tags
      | .I32Rotr, .I32 k1, .I32 k2 =>
          let amt := k2 &&& 0x1f
          .Concrete (.I32 (wrappingShr 32 k1 amt ||| wrappingShl 32 k1 (32 - amt))) tags
      | .I64Add, .I64 k1, .I64 k2 => .Concrete (.I64 ((k1 + k2) % 2 ^ 64)) tags
      | .I64Sub, .I64 k1, .I64 k2 => .Concrete (.I64 ((k1 + (2 ^ 64 - k2 % 2 ^ 64)) % 2 ^ 64)) tags
      | .I64Mul, .I64 k1, .I64 k2 => .Concrete (.I64 ((k1 * k2) % 2 ^ 64)) tags
      | .I64DivU, .I64 k1, .I64 k2 =>
          if k2 ≠ 0 then .Concrete (.I64 (k1 / k2)) tags else .Runtime ValueTags.default
      | .I64DivS, .I64 k1, .I64 k2 =>
          if k2 ≠ 0 ∧ (k1 ≠ 0x8000000000000000 ∨ k2 ≠ 0xffffffffffffffff) then
            .Concrete (.I64 (ofSigned 64 ((toSigned 64 k1).tdiv (toSigned 64 k2)))) tags
          else .Runtime ValueTags.default
      | .I64RemU, .I64 k1, .I64 k2 =>
          if k2 ≠ 0 then .Concrete (.I64 (k1 % k2)) tags else .Runtime ValueTags.default
      | .I64RemS, .I64 k1, .I64 k2 =>
          if k2 ≠ 0 ∧ (k1 ≠ 0x8000000000000000 ∨ k2 ≠ 0xffffffffffffffff) then
            .Concrete (.I64 (ofSigned 64 ((toSigned 64 k1).tmod (toSigned 64 k2)))) tags
          else .Runtime ValueTags.default
      | .I64And, .I64 k1, .I64 k2 => .Concrete (.I64 (k1 &&& k2)) tags
      | .I64Or, .I64 k1, .I64 k2 => .Concrete (.I64 (k1 ||| k2)) tags
      | .I64Xor, .I64 k1, .I64 k2 => .Concrete (.I64 (k1 ^^^ k2)) tags
      | .I64Shl, .I64 k1, .I64 k2 => .Concrete (.I64 (wrappingShl 64 k1 (k2 &&& 0x3f))) tags
      | .I64ShrU, .I64 k1, .I64 k2 => .Concrete (.I64 (wrappingShr 64 k1 (k2 &&& 0x3f))) tags
      | .I64ShrS, .I64 k1, .I64 k2 => .Concrete (.I64 (wrappingShrS 64 k1 (k2 &&& 0x3f))) tags
      | .I64Rotl, .I64 k1, .I64 k2 =>
          let amt := k2 &&& 0x3f
          .Concrete (.I64 (wrappingShl 64 k1 amt ||| wrappingShr 64 k1 (64 - amt))) tags
      | .I64Rotr, .I64 k1, .I64 k2 =>
          let amt := k2 &&& 0x3f
          .Concrete (.I64 (wrappingShr 64 k1 amt ||| wrappingShl 64 k1 (64 - amt))) tags
      | _, _, _ => .Runtime ValueTags.default
  | _, _ => .Runtime ValueTags.default

/-- Evaluator::abstract_eval_ternary: select and typed_select with a
concrete selector return the chosen operand unchanged, else runtime. -/
def abstractEvalTernary (op : Op) (x y z : AbstractValue) : AbstractValue :=
  match op, x with
  | .Select, .Concrete v _ => if v.isTruthy then y else z
  | .TypedSelect _, .Concrete v _ => if v.isTruthy then y else z
  | _, _ => .Runtime ValueTags.default

/-- Modelled from the spec: the interned context tree (state.rs is not
under src): an arena of (parent, element) nodes. Node 0 is the root; its
element pairs no pc with the entry block, so that the pop phase of
Evaluator::target_block stops on it. -/
structure Contexts where
  nodes : List (Option Context × ContextElem)

/-- Modelled from the spec: the parent of a non-root context (the root is
its own parent for the purpose of this total model; the code never asks
for the parent of the root). -/
def Contexts.parent (c : Contexts) (ctx : Context) : Context :=
  match c.nodes.getD ctx (none, (none, 0)) with
  | (some p, _) => p
  | (none, _) => 0

/-- Modelled from the spec: the element of the leaf node of a context. -/
def Contexts.leafElement (c : Contexts) (ctx : Context) : ContextElem :=
  (c.nodes.getD ctx (none, (none, 0))).2

/-- Modelled from the spec: interned creation. Equal parent and element
return the existing context id; otherwise a new node is appended. -/
def Contexts.create (c : Contexts) (parent : Option Context) (elem : ContextElem) :
    Contexts × Context :=
  match c.nodes.findIdx? (fun n => n = (parent, elem)) with
  | some i => (c, i)
  | none => ({ nodes := c.nodes ++ [(parent, elem)] }, c.nodes.length)

/-- Modelled from the spec: the per-context analysis state: a map from
original SSA value to (specialized value, abstract value), and a map from
original block to its current entry flow state. -/
structure PerContextState where
  ssaValues : Value → Option (Value × AbstractValue)
  blockEntry : Block → Option ProgPointState

/-- Modelled from the spec: FunctionState holds the context arena and the
per-context state. -/
structure FunctionState where
  contexts : Contexts
  state : Context → PerContextState

/-- Pointwise update of a function-backed finite map. -/
def mapUpd {α β : Type} [DecidableEq α] (m : α → β) (k : α) (v : β) : α → β :=
  fun x => if x = k then v else m x

/-- Store an ssa-map entry in the state of one context. -/
def FunctionState.setSsa (s : FunctionState) (ctx : Context) (orig : Value)
    (entry : Value × AbstractValue) : FunctionState :=
  let pcs := s.state ctx
  let pcs2 := { pcs with ssaValues := mapUpd pcs.ssaValues orig (some entry) }
  { s with state := mapUpd s.state ctx pcs2 }

/-- Store a block-entry state in the state of one context. -/
def FunctionState.setBlockEntry (s : FunctionState) (ctx : Context) (block : Block)
    (entry : ProgPointState) : FunctionState :=
  let pcs := s.state ctx
  let pcs2 := { pcs with blockEntry := mapUpd pcs.blockEntry block (some entry) }
  { s with state := mapUpd s.state ctx pcs2 }

/-- A branch target of the waffle IR (collaborator): a block and the
edge arguments for its block parameters. -/
structure BlockTarget where
  block : Block
  args : List Value

/-- The terminators of the waffle IR (collaborator). -/
inductive Terminator where
  | None
  | Br (target : BlockTarget)
  | CondBr (cond : Value) (ifTrue : BlockTarget) (ifFalse : BlockTarget)
  | Select (value : Value) (targets : List BlockTarget) (defaultTarget : BlockTarget)
  | Return (values : List Value)
  | Unreachable

/-- The value definitions of the waffle IR (collaborator). -/
inductive ValueDef where
  | Alias (v : Value)
  | PickOutput (v : Value) (idx : Nat) (ty : Ty)
  | Operator (op : Op) (args : List Value) (tys : List Ty)
  | BlockParam (block : Block) (idx : Nat) (ty : Ty)

/-- A basic block of the waffle IR (collaborator): ordered typed
parameters, an ordered instruction list, and a terminator. -/
structure BlockData where
  params : List (Ty × Value)
  insts : List Value
  terminator : Terminator

/-- An empty block. -/
def emptyBlock : BlockData := ⟨[], [], .None⟩

/-- A function body of the waffle IR (collaborator): an entry block, a
block arena, a value arena, and the defining block of each value. -/
structure FunctionBody where
  entry : Block
  blocks : List BlockData
  values : List ValueDef
  valueBlocks : Value → Block

/-- Block lookup in a function body. -/
def FunctionBody.getBlock (f : FunctionBody) (b : Block) : BlockData :=
  f.blocks.getD b emptyBlock

/-- FunctionBody::add_block appends an empty block. -/
def FunctionBody.addBlock (f : FunctionBody) : FunctionBody × Block :=
  ({ f with blocks := f.blocks ++ [emptyBlock] }, f.blocks.length)

/-- FunctionBody::add_blockparam appends a fresh block parameter value of
the given type to a block. -/
def FunctionBody.addBlockparam (f : FunctionBody) (b : Block) (ty : Ty) :
    FunctionBody × Value :=
  let v := f.values.length
  let bd := f.getBlock b
  ({ f with
      values := f.values ++ [.BlockParam b bd.params.length ty]
      blocks := f.blocks.set b { bd with params := bd.params ++ [(ty, v)] } }, v)

/-- FunctionBody::add_value appends a value definition. -/
def FunctionBody.addValue (f : FunctionBody) (vd : ValueDef) : FunctionBody × Value :=
  ({ f with values := f.values ++ [vd] }, f.values.length)

/-- FunctionBody::append_to_block appends an instruction to a block. -/
def FunctionBody.appendToBlock (f : FunctionBody) (b : Block) (v : Value) : FunctionBody :=
  { f with blocks := f.blocks.set b { f.getBlock b with insts := (f.getBlock b).insts ++ [v] } }

/-- FunctionBody::set_terminator replaces the terminator of a block. -/
def FunctionBody.setTerminator (f : FunctionBody) (b : Block) (t : Terminator) : FunctionBody :=
  { f with blocks := f.blocks.set b { f.getBlock b with terminator := t } }

/-- The Evaluator record of eval.rs. The dominator query of the CFGInfo
collaborator is carried as a function; maps are function-backed. -/
structure Evaluator where
  generic : FunctionBody
  intrinsics : Intrinsics
  image : Image
  dominates : Block → Block → Bool
  state : FunctionState
  func : FunctionBody
  blockMap : Context × Block → Option Block
  blockDeps : Context × Block → List (Context × Block)
  valueMap : Context × Value → Option Value
  queue : List (Block × Context × Block)
  queueSet : Block × Context → Bool
  headerBlocks : Block → Bool

instance : Inhabited Evaluator :=
  ⟨{ generic := ⟨0, [], [], fun _ => 0⟩
     intrinsics := ⟨none, none, none⟩
     image := ⟨fun _ _ _ => none, none, fun _ _ => none⟩
     dominates := fun _ _ => false
     state := ⟨⟨[]⟩, fun _ => ⟨fun _ => none, fun _ => none⟩⟩
     func := ⟨0, [], [], fun _ => 0⟩
     blockMap := fun _ => none
     blockDeps := fun _ => []
     valueMap := fun _ => none
     queue := []
     queueSet := fun _ => false
     headerBlocks := fun _ => false }⟩

/-- The ancestor walk of Evaluator::use_value, with fuel standing in for
the arena invariant that parent indices strictly decrease. Returns none
where the code would panic (reaching the root without a definition, or a
malformed parent chain). On success it records the block dependency
(lookup context, defining block) to (caller context, caller block). -/
def useValueGo (E : Evaluator) (fuel : Nat) (origContext : Context) (origBlock : Block)
    (valBlock : Block) (origVal : Value) (context : Context) :
    Option (Evaluator × Value × AbstractValue) :=
  match fuel with
  | 0 => none
  | fuel + 1 =>
      match (E.state.state context).ssaValues origVal with
      | some (val, abs) =>
          let deps := E.blockDeps (context, valBlock)
          let deps2 := if (origContext, origBlock) ∈ deps then deps
                       else deps ++ [(origContext, origBlock)]
          some ({ E with blockDeps := mapUpd E.blockDeps (context, valBlock) deps2 }, val, abs)
      | none =>
          if context = 0 then none
          else useValueGo E fuel origContext origBlock valBlock origVal
                 (E.state.contexts.parent context)

/-- Evaluator::use_value: resolve an SSA operand in the given context by
walking up through ancestor contexts. -/
def useValue (E : Evaluator) (context : Context) (origBlock : Block) (origVal : Value) :
    Option (Evaluator × Value × AbstractValue) :=
  useValueGo E (context + 1) context origBlock (E.generic.valueBlocks origVal) origVal context

/-- Evaluator::enqueue_block_if_existing: re-queue a (block, context) pair
if it already has a specialized block and is not already queued. -/
def enqueueBlockIfExisting (E : Evaluator) (origBlock : Block) (context : Context) : Evaluator :=
  match E.blockMap (context, origBlock) with
  | some block =>
      if E.queueSet (origBlock, context) then E
      else { E with
              queueSet := mapUpd E.queueSet (origBlock, context) true
              queue := E.queue ++ [(origBlock, context, block)] }
  | none => E

/-- Evaluator::def_value: store or meet (val, abs) into the per-context
SSA map; a vacant entry stores the pair, an occupied entry keeps its
specialized value and meets the abstract values. If the entry changed,
every recorded consumer of (context, block) is re-queued. -/
def defValue (E : Evaluator) (block : Block) (context : Context) (origVal : Value)
    (val : Value) (abs : AbstractValue) : Evaluator :=
  let (entry, changed) :=
    match (E.state.state context).ssaValues origVal with
    | none => ((val, abs), true)
    | some (v0, a0) =>
        let updated := AbstractValue.meet a0 abs
        ((v0, updated), decide (updated ≠ a0))
  let E2 := { E with state := E.state.setSsa context origVal entry }
  if changed then
    (E2.blockDeps (context, block)).foldl
      (fun acc dep => enqueueBlockIfExisting acc dep.2 dep.1) E2
  else E2

/-- Evaluator::meet_into_block_entry: store or meet a flow state into the
entry state of (context, block); returns whether it changed. -/
def meetIntoBlockEntry (E : Evaluator) (block : Block) (context : Context)
    (st : ProgPointState) : Evaluator × Bool :=
  match (E.state.state context).blockEntry block with
  | none => ({ E with state := E.state.setBlockEntry context block st }, true)
  | some cur =>
      let (next, changed) := cur.meetWith st
      ({ E with state := E.state.setBlockEntry context block next }, changed)

/-- Evaluator::create_block: add a specialized block, copy the block
parameters of the original block (recording (context, orig param) to new
param), record the block map entry, and store the given flow state as the
entry state of (context, orig block). -/
def createBlock (E : Evaluator) (origBlock : Block) (context : Context)
    (st : ProgPointState) : Evaluator × Block :=
  let (func, block) := E.func.addBlock
  let step := fun (acc : FunctionBody × ((Context × Value) → Option Value)) (p : Ty × Value) =>
    let (f2, newParam) := acc.1.addBlockparam block p.1
    (f2, mapUpd acc.2 (context, p.2) (some newParam))
  let (func, valueMap) := (E.generic.getBlock origBlock).params.foldl step (func, E.valueMap)
  let E2 := { E with
      func := func
      valueMap := valueMap
      blockMap := mapUpd E.blockMap (context, origBlock) (some block)
      state := E.state.setBlockEntry context origBlock st }
  (E2, block)

/-- Evaluator::target_block: choose the (specialized block, context) for an
edge from origBlock to target. The pop phase inspects the leaf element of
the current context and, on a back-edge to the loop header with a staged
pc, creates a sibling context under the parent and clears the staged pc
in the updated state; the push phase enters a fresh (None, target) child
context when the edge enters a loop from outside. A missing specialized
block is created with the ORIGINAL flow state of the caller (state.flow,
not the updated one) and queued; an existing one has the updated flow met
into its entry state. -/
def targetBlock (E : Evaluator) (state : PointState) (origBlock : Block) (target : Block) :
    Evaluator × Block × Context :=
  let elem := E.state.contexts.leafElement state.context
  let (ctxs1, updatedState) :=
    if elem.2 = E.generic.entry then (E.state.contexts, state)
    else if !(E.dominates elem.2 target) then (E.state.contexts, state)
    else if elem.2 = target then
      match state.flow.stagedPc with
      | .None => (E.state.contexts, state)
      | .Conflict => (E.state.contexts, { state with flow := { state.flow with stagedPc := .None } })
      | .Some pc =>
          let parent := E.state.contexts.parent state.context
          let (ctxs, newCtx) := E.state.contexts.create (some parent) (pc, elem.2)
          (ctxs, { context := newCtx, flow := { state.flow with stagedPc := .None } })
    else (E.state.contexts, state)
  let (ctxs2, updatedState) :=
    if E.headerBlocks target && !(E.dominates target origBlock) then
      let (ctxs, c) := ctxs1.create (some updatedState.context) (none, target)
      (ctxs, { updatedState with context := c })
    else (ctxs1, updatedState)
  let E2 := { E with state := { E.state with contexts := ctxs2 } }
  match E2.blockMap (updatedState.context, target) with
  | none =>
      let (E3, block) := createBlock E2 target updatedState.context state.flow
      let E4 := { E3 with
          blockMap := mapUpd E3.blockMap (updatedState.context, target) (some block)
          queueSet := mapUpd E3.queueSet (target, updatedState.context) true
          queue := E3.queue ++ [(target, updatedState.context, block)] }
      (E4, block, updatedState.context)
  | some targetSpecialized =>
      let (E3, changed) := meetIntoBlockEntry E2 target updatedState.context updatedState.flow
      let E4 :=
        if changed then
          if E3.queueSet (target, updatedState.context) then E3
          else { E3 with
                  queueSet := mapUpd E3.queueSet (target, updatedState.context) true
                  queue := E3.queue ++ [(target, updatedState.context, targetSpecialized)] }
        else E3
      (E4, targetSpecialized, updatedState.context)

/-- The read phase of Evaluator::evaluate_block_target: resolve every edge
argument in order, threading the evaluator. -/
def readArgs (E : Evaluator) (context : Context) (origBlock : Block) :
    List Value → Option (Evaluator × List (Value × AbstractValue))
  | [] => some (E, [])
  | a :: rest => do
      let (E1, v, ab) ← useValue E context origBlock a
      let (E2, tl) ← readArgs E1 context origBlock rest
      some (E2, (v, ab) :: tl)

/-- Evaluator::evaluate_block_target: choose the target block, then with
parallel-move semantics read all edge arguments and only then define all
block parameters of the target in the target context. -/
def evaluateBlockTarget (E : Evaluator) (origBlock : Block) (state : PointState)
    (target : BlockTarget) : Option (Evaluator × BlockTarget) := do
  let (E1, tb, targetCtx) := targetBlock E state origBlock target.block
  let params := (E1.generic.getBlock target.block).params.map (fun p => p.2)
  let pairs := params.zip target.args
  let (E2, results) ← readArgs E1 state.context origBlock (pairs.map (fun p => p.2))
  let defs := params.zip results
  let E3 := defs.foldl
    (fun acc pr => defValue acc origBlock targetCtx pr.1 pr.2.1 pr.2.2) E2
  some (E3, { block := tb, args := results.map (fun p => p.1) })

/-- Evaluate a list of branch targets in order, threading the evaluator. -/
def evalTargets (E : Evaluator) (origBlock : Block) (state : PointState) :
    List BlockTarget → Option (Evaluator × List BlockTarget)
  | [] => some (E, [])
  | t :: rest => do
      let (E1, t1) ← evaluateBlockTarget E origBlock state t
      let (E2, tl) ← evalTargets E1 origBlock state rest
      some (E2, t1 :: tl)

/-- Resolve a list of returned values in order, threading the evaluator. -/
def useValues (E : Evaluator) (context : Context) (origBlock : Block) :
    List Value → Option (Evaluator × List Value)
  | [] => some (E, [])
  | v :: rest => do
      let (E1, v1, _) ← useValue E context origBlock v
      let (E2, tl) ← useValues E1 context origBlock rest
      some (E2, v1 :: tl)

/-- Evaluator::evaluate_term: evaluate the terminator of origBlock under
the given point state and set the resulting terminator on newBlock. A
CondBr on a constant condition is rewritten to a Br to the chosen target
(the other target is not evaluated); a Select on a concrete u32 selector
is rewritten to a Br to the selected target (out-of-range selectors take
the default target); otherwise all relevant targets are evaluated. -/
def evaluateTerm (E : Evaluator) (origBlock : Block) (state : PointState)
    (newBlock : Block) : Option Evaluator := do
  let newTerm ←
    match (E.generic.getBlock origBlock).terminator with
    | .None => some (E, Terminator.None)
    | .CondBr cond ifTrue ifFalse => do
        let (E1, condv, absCond) ← useValue E state.context origBlock cond
        match absCond.isConstTruthy with
        | some true => do
            let (E2, t) ← evaluateBlockTarget E1 origBlock state ifTrue
            some (E2, Terminator.Br t)
        | some false => do
            let (E2, t) ← evaluateBlockTarget E1 origBlock state ifFalse
            some (E2, Terminator.Br t)
        | none => do
            let (E2, t1) ← evaluateBlockTarget E1 origBlock state ifTrue
            let (E3, t2) ← evaluateBlockTarget E2 origBlock state ifFalse
            some (E3, Terminator.CondBr condv t1 t2)
    | .Br target => do
        let (E1, t) ← evaluateBlockTarget E origBlock state target
        some (E1, Terminator.Br t)
    | .Select value targets defaultTarget => do
        let (E1, valuev, absValue) ← useValue E state.context origBlock value
        match absValue.isConstU32 with
        | some selector => do
            let (E2, t) ← evaluateBlockTarget E1 origBlock state
              (targets.getD selector defaultTarget)
            some (E2, Terminator.Br t)
        | none => do
            let (E2, ts) ← evalTargets E1 origBlock state targets
            let (E3, d) ← evaluateBlockTarget E2 origBlock state defaultTarget
            some (E3, Terminator.Select valuev ts d)
    | .Return values => do
        let (E1, vs) ← useValues E state.context origBlock values
        some (E1, Terminator.Return vs)
    | .Unreachable => some (E, Terminator.Unreachable)
  some { newTerm.1 with func := newTerm.1.func.setTerminator newBlock newTerm.2 }

/-- The residual-form selection of Evaluator::evaluate_block_body for one
operator instruction: a replacement value becomes an alias; a concrete
result of a single-result operator with a constant form becomes that
constant operator; anything else re-emits the original operator on the
resolved arguments with a runtime abstract value carrying the tags. A Top
result is the unreachable arm of the code, modelled as none. -/
def residualForm (replace : Option Value) (av : AbstractValue) (op : Op)
    (argValues : List Value) (tys : List Ty) : Option (ValueDef × AbstractValue) :=
  match replace, av with
  | _, .Top => none
  | some val, a => some (.Alias val, a)
  | none, .Concrete bits t =>
      match tys with
      | [ty0] =>
          match constOperator ty0 bits with
          | some constOp => some (.Operator constOp [] [ty0], .Concrete bits t)
          | none => some (.Operator op argValues [ty0], .Runtime t)
      | _ => some (.Operator op argValues tys, .Runtime (AbstractValue.Concrete bits t).tags)
  | none, .Runtime t => some (.Operator op argValues tys, .Runtime t)

/-- Modelled from the spec: the parts of a directive the driver itself
reads (directive.rs is not under src). The function id and constant
parameters are consumed opaquely by the per-function specializer. -/
structure Directive where
  func : Nat
  funcIndexOutAddr : Nat

/-- The loop of partially_evaluate from eval.rs, abstracted over the
per-function specializer peFunc (partially_evaluate_func together with
the module it mutates, of abstract type M). Each successful directive
accumulates (write address, new function index) in the pending map; after
ALL directives have succeeded the pending updates are written to the main
heap of the image. A failing directive returns its error immediately,
leaving the image untouched but keeping the module mutations made so far.
The result triple is (outcome, final module, final image). -/
def partiallyEvaluateGo {M : Type} (peFunc : M → Directive → Except Nat (M × Option Nat))
    (module : M) (im : Image) (directives : List Directive)
    (memUpdates : List (Nat × Nat)) : Except Nat Unit × M × Image :=
  match directives with
  | [] =>
      match im.mainHeapId with
      | none => (.error 0, module, im)
      | some heap =>
          (.ok (), module,
           memUpdates.foldl (fun acc kv => acc.writeU32 heap kv.1 kv.2) im)
  | d :: rest =>
      match peFunc module d with
      | .error e => (.error e, module, im)
      | .ok (m2, some idx) =>
          partiallyEvaluateGo peFunc m2 im rest (alistInsert memUpdates d.funcIndexOutAddr idx)
      | .ok (m2, none) => partiallyEvaluateGo peFunc m2 im rest memUpdates

/-- partially_evaluate from eval.rs: process all directives, then write
the accumulated function indices into the main heap. -/
def partiallyEvaluate {M : Type} (peFunc : M → Directive → Except Nat (M × Option Nat))
    (module : M) (im : Image) (directives : List Directive) : Except Nat Unit × M × Image :=
  partiallyEvaluateGo peFunc module im directives []

/-- The characterization of one load opcode used by the load-folding
claim: the result is a constant exactly when the address is a concrete
i32 whose tags contain const_memory and the image read succeeds; the
folded value is mk applied to the bytes read at address plus static
offset, with the address tags carried over; a missing tag or a failed
read gives Runtime(default). -/
def LoadFoldSpec (op : Op) (m : MemoryArg) (size : Nat) (mk : Nat → WasmVal) : Prop :=
  ∀ (image : Image) (x : AbstractValue) (st : PointState),
    ((∃ w u, (abstractEvalUnary image op x st).1 = .Concrete w u) ↔
      (∃ k t, x = .Concrete (.I32 k) t ∧ t.contains ValueTags.constMemoryTag = true ∧
        ∃ d, image.readSizeFn m.memory (loadAddr m k) size = some d)) ∧
    (∀ k t d, x = .Concrete (.I32 k) t → t.contains ValueTags.constMemoryTag = true →
        image.readSizeFn m.memory (loadAddr m k) size = some d →
        (abstractEvalUnary image op x st).1 = .Concrete (mk d) t) ∧
    (∀ k t, x = .Concrete (.I32 k) t → t.contains ValueTags.constMemoryTag = false →
        (abstractEvalUnary image op x st).1 = .Runtime ValueTags.default) ∧
    (∀ k t, x = .Concrete (.I32 k) t → t.contains ValueTags.constMemoryTag = true →
        image.readSizeFn m.memory (loadAddr m k) size = none →
        (abstractEvalUnary image op x st).1 = .Runtime ValueTags.default)

/-- An empty function state over a given context arena. -/
def emptyState (c : Contexts) : FunctionState :=
  ⟨c, fun _ => ⟨fun _ => none, fun _ => none⟩⟩

/-- An image with no readable constant memory. -/
def emptyImage : Image := ⟨fun _ _ _ => none, none, fun _ _ => none⟩

/-- Concrete input for the back-edge claims: entry block 0, loop header
block 1 containing the back-edge source block 2. Block 1 dominates
blocks 1 and 2; the context arena holds the root and the (None, header 1)
loop context. -/
def c1Eval : Evaluator :=
  { (default : Evaluator) with
    generic := ⟨0, [emptyBlock, emptyBlock, emptyBlock], [], fun _ => 0⟩
    image := emptyImage
    dominates := fun a b => decide (a = 0 ∨ (a = 1 ∧ (b = 1 ∨ b = 2)))
    state := emptyState ⟨[(none, (none, 0)), (some 0, (none, 1))]⟩
    func := ⟨0, [emptyBlock], [], fun _ => 0⟩
    headerBlocks := fun b => decide (b = 1) }

/-- A point state in the loop context with a staged concrete pc 100. -/
def c1State : PointState := ⟨1, ⟨[], .Some (some 100)⟩⟩

/-- Intrinsic indices with loop_pc32_update at function index 1. -/
def c2Intr : Intrinsics := ⟨none, some 1, none⟩

/-- A point state that already has a staged pc 5. -/
def c2State : PointState := ⟨0, ⟨[], .Some (some 5)⟩⟩

/-- Concrete evaluator whose root context defines ssa value 7 as
specialized value 3 with abstract value Concrete(I32 5). -/
def dvEval : Evaluator :=
  { (default : Evaluator) with
    state := ⟨⟨[(none, (none, 0))]⟩,
      fun _ => ⟨fun v => if v = 7 then some (3, .Concrete (.I32 5) ValueTags.default) else none,
                fun _ => none⟩⟩ }

/-- An image holding the four little-endian bytes 01 02 03 04 at address
0x1000 of memory 0, as a 4-byte read. -/
def c4Image : Image :=
  ⟨fun mem addr size => if mem = 0 ∧ addr = 0x1000 ∧ size = 4 then some 0x04030201 else none,
   some 0, fun _ _ => none⟩

/-- Concrete evaluator whose entry block 0 ends in CondBr on ssa value 0,
bound in the root context to Concrete(I32 1). -/
def c6Eval : Evaluator :=
  { (default : Evaluator) with
    generic := ⟨0,
      [⟨[], [], .CondBr 0 ⟨1, []⟩ ⟨2, []⟩⟩, ⟨[], [], .Return []⟩, ⟨[], [], .Return []⟩],
      [.Operator (.I32Const 1) [] [.I32]], fun _ => 0⟩
    image := emptyImage
    state := ⟨⟨[(none, (none, 0))]⟩,
      fun _ => ⟨fun v => if v = 0 then some (0, .Concrete (.I32 1) ValueTags.default) else none,
                fun _ => none⟩⟩
    func := ⟨0, [emptyBlock], [], fun _ => 0⟩ }

/-- Concrete evaluator whose entry block 0 ends in a Select on ssa value
0, bound in the root context to Concrete(I32 0). -/
def c7Eval : Evaluator :=
  { (default : Evaluator) with
    generic := ⟨0,
      [⟨[], [], .Select 0 [⟨1, []⟩] ⟨2, []⟩⟩, ⟨[], [], .Return []⟩, ⟨[], [], .Return []⟩],
      [.Operator (.I32Const 0) [] [.I32]], fun _ => 0⟩
    image := emptyImage
    state := ⟨⟨[(none, (none, 0))]⟩,
      fun _ => ⟨fun v => if v = 0 then some (0, .Concrete (.I32 0) ValueTags.default) else none,
                fun _ => none⟩⟩
    func := ⟨0, [emptyBlock], [], fun _ => 0⟩ }

/-- A two-directive run over module type Nat: the first directive
succeeds (incrementing the module and yielding function index 5), the
second fails with error 1. -/
def c9PeFunc : Nat → Directive → Except Nat (Nat × Option Nat) :=
  fun m d => if d.func = 0 then .ok (m + 1, some 5) else .error 1

/-- An image with main heap 0 for the driver run. -/
def c9Image : Image := ⟨fun _ _ _ => none, some 0, fun _ _ => none⟩

/-- The two directives of the driver run. -/
def c9Directives : List Directive := [⟨0, 10⟩, ⟨1, 11⟩]

/-- Re-queueing a block touches only the queue, never the analysis state. -/
theorem enqueue_preserves_state (E : Evaluator) (b : Block) (c : Context) :
    (enqueueBlockIfExisting E b c).state = E.state := by
  unfold enqueueBlockIfExisting
  cases E.blockMap (c, b) <;> simp
  split <;> rfl

/-- Folding re-queueing over a dependency list never changes the
analysis state. -/
theorem foldl_enqueue_preserves_state (deps : List (Context × Block)) (E : Evaluator) :
    (deps.foldl (fun acc dep => enqueueBlockIfExisting acc dep.2 dep.1) E).state = E.state := by
  induction deps generalizing E with
  | nil => rfl
  | cons d rest ih => simp [List.foldl, ih, enqueue_preserves_state]

/-- The analysis-state effect of def_value: the per-context SSA entry is
stored (vacant) or updated to keep its specialized value and meet the
abstract values (occupied). -/
theorem defValue_state (E : Evaluator) (block : Block) (context : Context)
    (origVal val : Value) (abs : AbstractValue) :
    (defValue E block context origVal val abs).state =
      E.state.setSsa context origVal
        (match (E.state.state context).ssaValues origVal with
         | none => (val, abs)
         | some (v0, a0) => (v0, AbstractValue.meet a0 abs)) := by
  unfold defValue
  cases h : (E.state.state context).ssaValues origVal with
  | none => simp [h, foldl_enqueue_preserves_state]
  | some p => cases p with
    | mk v0 a0 =>
        simp [h]
        split <;> simp [foldl_enqueue_preserves_state]

/-- C1: the claim is that a staged pc consumed on a loop back-edge is
cleared in the flow state stored as the target entry state, also when a
new specialized block is created for the adopted context. The code
violates this: Evaluator::target_block passes the ORIGINAL state.flow
(with staged_pc still Some(pc)) to create_block in the vacant case, so
the entry state recorded for the newly created sibling context keeps
StagedPC::Some(100). -/
theorem c1_staged_pc_kept_in_created_entry_state :
    ((((targetBlock c1Eval c1State 2 1).1.state.state 2).blockEntry 1).map
        (fun st => st.stagedPc)) = some (StagedPC.Some (some 100)) ∧
    StagedPC.Some (some 100) ≠ StagedPC.None := by
  constructor
  · rfl
  · decide

/-- C2 counterexample: with pc 5 already staged, a loop_pc32_update call
whose argument is the concrete u32 7 stages Some(7); it does NOT produce
Conflict as the claim states. -/
theorem c2_no_conflict_on_restage :
    ((abstractEvalIntrinsic c2Intr (.Call 1)
        [.Concrete (.I32 7) ValueTags.default] [4] c2State).map
      (fun r => r.2.flow.stagedPc)) = some (StagedPC.Some (some 7)) ∧
    StagedPC.Some (some 7) ≠ StagedPC.Conflict := by
  constructor
  · rfl
  · decide

/-- C2 (amended): a call to the loop_pc32_update intrinsic unconditionally
overwrites flow.staged_pc with Some of the optional concrete u32 argument
(Some(Some x) for a concrete x, Some(None) otherwise), regardless of any
previously staged value; it never produces Conflict here. The residual
value is the argument itself and the abstract result is the argument. -/
theorem c2_loop_pc32_update_overwrites (intr : Intrinsics) (fi : Nat)
    (h1 : intr.loopPc32Update = some fi) (h2 : some fi ≠ intr.assumeConstMemory)
    (a : AbstractValue) (abs : List AbstractValue) (v : Value) (vs : List Value)
    (st : PointState) :
    abstractEvalIntrinsic intr (.Call fi) (a :: abs) (v :: vs) st =
      some ((a, some v),
        { st with flow := { st.flow with stagedPc := .Some a.isConstU32 } }) := by
  simp [abstractEvalIntrinsic, h1, h2]

/-- C2 witness: the amended statement at the concrete counterexample
input. -/
theorem c2_witness :
    abstractEvalIntrinsic c2Intr (.Call 1)
        [.Concrete (.I32 7) ValueTags.default] [4] c2State =
      some ((.Concrete (.I32 7) ValueTags.default, some 4),
        { c2State with flow := { c2State.flow with
            stagedPc := .Some (AbstractValue.isConstU32 (.Concrete (.I32 7) ValueTags.default)) } }) :=
  c2_loop_pc32_update_overwrites c2Intr 1 rfl (by decide)
    (.Concrete (.I32 7) ValueTags.default) [] 4 [] c2State

/-- C3: for an occupied entry, def_value replaces the stored abstract
value by the meet of old and new, and the meet only descends: a Runtime
value stays Runtime, and a Concrete value either keeps the same constant
or descends to Runtime (never moves to a different constant and never
back up). -/
theorem c3_def_value_monotone (E : Evaluator) (block : Block) (ctx : Context)
    (orig val : Value) (abs : AbstractValue) (v0 : Value) (a0 : AbstractValue)
    (h : (E.state.state ctx).ssaValues orig = some (v0, a0)) :
    ((defValue E block ctx orig val abs).state.state ctx).ssaValues orig =
        some (v0, AbstractValue.meet a0 abs) ∧
    (∀ t, a0 = .Runtime t → ∃ u, AbstractValue.meet a0 abs = .Runtime u) ∧
    (∀ w t, a0 = .Concrete w t →
        (∃ u, AbstractValue.meet a0 abs = .Concrete w u) ∨
        (∃ u, AbstractValue.meet a0 abs = .Runtime u)) := by
  refine ⟨?_, ?_, ?_⟩
  · rw [defValue_state, h]
    simp [FunctionState.setSsa, mapUpd]
  · rintro t rfl
    cases abs <;> simp [AbstractValue.meet]
  · rintro w t rfl
    cases abs with
    | Top => exact Or.inl ⟨t, rfl⟩
    | Runtime u => exact Or.inr ⟨_, rfl⟩
    | Concrete w2 u =>
        by_cases hw : w = w2
        · subst hw; exact Or.inl ⟨t.meet u, by simp [AbstractValue.meet]⟩
        · exact Or.inr ⟨t.meet u, by simp [AbstractValue.meet, hw]⟩

/-- C3 witness: meeting the stored Concrete(I32 5) with Runtime at the
concrete evaluator. -/
theorem c3_witness :
    ((defValue dvEval 0 0 7 9 (.Runtime ValueTags.default)).state.state 0).ssaValues 7 =
      some (3, AbstractValue.meet (.Concrete (.I32 5) ValueTags.default)
                 (.Runtime ValueTags.default)) :=
  (c3_def_value_monotone dvEval 0 0 7 9 (.Runtime ValueTags.default) 3
    (.Concrete (.I32 5) ValueTags.default) (by decide)).1

/-- C10: when def_value hits an occupied entry, the stored specialized
SSA value component is left unchanged; only the abstract component is
replaced. -/
theorem c10_def_value_keeps_specialized (E : Evaluator) (block : Block) (ctx : Context)
    (orig val : Value) (abs : AbstractValue) (v0 : Value) (a0 : AbstractValue)
    (h : (E.state.state ctx).ssaValues orig = some (v0, a0)) :
    ∃ a1, ((defValue E block ctx orig val abs).state.state ctx).ssaValues orig =
        some (v0, a1) := by
  refine ⟨AbstractValue.meet a0 abs, ?_⟩
  rw [defValue_state, h]
  simp [FunctionState.setSsa, mapUpd]

/-- C10 witness: redefining ssa value 7 with a different specialized
value 11 keeps the first specialized value 3. -/
theorem c10_witness :
    ∃ a1, ((defValue dvEval 0 0 7 11 (.Concrete (.I32 6) ValueTags.default)).state.state 0).ssaValues 7 =
        some (3, a1) :=
  c10_def_value_keeps_specialized dvEval 0 0 7 11 (.Concrete (.I32 6) ValueTags.default) 3
    (.Concrete (.I32 5) ValueTags.default) (by decide)

/-- The driver loop leaves the image untouched whenever it returns an
error, for every pending-update accumulator. -/
theorem partiallyEvaluateGo_error_image {M : Type}
    (peFunc : M → Directive → Except Nat (M × Option Nat)) (ds : List Directive) :
    ∀ (module : M) (im : Image) (memUpdates : List (Nat × Nat)) (e : Nat),
      (partiallyEvaluateGo peFunc module im ds memUpdates).1 = .error e →
      (partiallyEvaluateGo peFunc module im ds memUpdates).2.2 = im := by
  induction ds with
  | nil =>
      intro module im mu e h
      unfold partiallyEvaluateGo at h ⊢
      cases him : im.mainHeapId with
      | none => simp [him]
      | some heap => rw [him] at h; simp at h
  | cons d rest ih =>
      intro module im mu e h
      unfold partiallyEvaluateGo at h ⊢
      cases hpe : peFunc module d with
      | error e2 => simp
      | ok p =>
          obtain ⟨m2, idx⟩ := p
          rw [hpe] at h
          cases idx with
          | none => exact ih m2 im mu e h
          | some i => exact ih m2 im (alistInsert mu d.funcIndexOutAddr i) e h

/-- C9: if any directive fails, partially_evaluate has performed no
writes to the memory image at all; the pending function-index map is
only written to the main heap after every directive has succeeded. -/
theorem c9_no_image_writes_on_error {M : Type}
    (peFunc : M → Directive → Except Nat (M × Option Nat)) (module : M) (im : Image)
    (ds : List Directive) (e : Nat)
    (h : (partiallyEvaluate peFunc module im ds).1 = .error e) :
    (partiallyEvaluate peFunc module im ds).2.2 = im :=
  partiallyEvaluateGo_error_image peFunc ds module im [] e h

/-- C9 witness: a run where the first directive succeeds (mutating the
module from 0 to 1) and the second fails with error 1: the image is
returned unchanged while the module mutation remains. -/
theorem c9_witness :
    (partiallyEvaluate c9PeFunc 0 c9Image c9Directives).2.2 = c9Image ∧
    (partiallyEvaluate c9PeFunc 0 c9Image c9Directives).1 = .error 1 ∧
    (partiallyEvaluate c9PeFunc 0 c9Image c9Directives).2.1 = 1 :=
  ⟨c9_no_image_writes_on_error c9PeFunc 0 c9Image c9Directives 1 rfl, rfl, rfl⟩

/-- A load opcode satisfies its folding characterization as soon as its
unary transfer arm is the guarded evalLoad on concrete i32 addresses and
runtime on everything else. -/
theorem loadFoldSpec_of (op : Op) (m : MemoryArg) (size : Nat) (mk : Nat → WasmVal)
    (hop : ∀ (image : Image) (x : AbstractValue) (st : PointState),
      (abstractEvalUnary image op x st).1 =
        match x with
        | .Concrete (.I32 k) t => evalLoad image m size mk k t
        | _ => .Runtime ValueTags.default) :
    LoadFoldSpec op m size mk := by
  intro image x st
  refine ⟨⟨?_, ?_⟩, ?_, ?_, ?_⟩
  · rintro ⟨w, u, hw⟩
    rw [hop] at hw
    rcases x with _ | t0 | ⟨v, t0⟩
    · simp at hw
    · simp at hw
    · rcases v with k | k | k | k
      · cases ht : t0.contains ValueTags.constMemoryTag with
        | false => simp [evalLoad, ht] at hw
        | true =>
            cases hr : image.readSizeFn m.memory (loadAddr m k) size with
            | none => simp [evalLoad, ht, hr] at hw
            | some d => exact ⟨k, t0, rfl, ht, d, hr⟩
      · simp at hw
      · simp at hw
      · simp at hw
  · rintro ⟨k, t0, rfl, ht, d, hr⟩
    rw [hop]
    simp [evalLoad, ht, hr]
  · rintro k t0 d rfl ht hr
    rw [hop]
    simp [evalLoad, ht, hr]
  · rintro k t0 rfl ht
    rw [hop]
    simp [evalLoad, ht]
  · rintro k t0 rfl ht hr
    rw [hop]
    simp [evalLoad, ht, hr]

/-- C4: each i32 and i64 load opcode folds exactly when its address is a
concrete i32 carrying the const_memory tag and the image read of size
bytes at address plus static offset succeeds; the folded value is the
per-opcode sign- or zero-extension of the bytes read with the address
tags carried over; a missing tag or a failed read gives Runtime(default). -/
theorem c4_load_folding (m : MemoryArg) :
    LoadFoldSpec (.I32Load m) m 4 (fun d => .I32 (zext 32 d)) ∧
    LoadFoldSpec (.I32Load8U m) m 1 (fun d => .I32 (zext 8 d)) ∧
    LoadFoldSpec (.I32Load8S m) m 1 (fun d => .I32 (sext 8 32 d)) ∧
    LoadFoldSpec (.I32Load16U m) m 2 (fun d => .I32 (zext 16 d)) ∧
    LoadFoldSpec (.I32Load16S m) m 2 (fun d => .I32 (sext 16 32 d)) ∧
    LoadFoldSpec (.I64Load m) m 8 (fun d => .I64 d) ∧
    LoadFoldSpec (.I64Load8U m) m 1 (fun d => .I64 (zext 8 d)) ∧
    LoadFoldSpec (.I64Load8S m) m 1 (fun d => .I64 (sext 8 64 d)) ∧
    LoadFoldSpec (.I64Load16U m) m 2 (fun d => .I64 (zext 16 d)) ∧
    LoadFoldSpec (.I64Load16S m) m 2 (fun d => .I64 (sext 16 64 d)) ∧
    LoadFoldSpec (.I64Load32U m) m 4 (fun d => .I64 (zext 32 d)) ∧
    LoadFoldSpec (.I64Load32S m) m 4 (fun d => .I64 (sext 32 64 d)) := by
  refine ⟨?_, ?_, ?_, ?_, ?_, ?_, ?_, ?_, ?_, ?_, ?_, ?_⟩ <;>
    apply loadFoldSpec_of <;>
    · intro image x st
      rcases x with _ | t0 | ⟨v, t0⟩
      · rfl
      · rfl
      · rcases v <;> rfl

/-- C4 witness: i32.load of the image bytes 01 02 03 04 at the tagged
concrete address 0x1000 folds to Concrete(I32 0x04030201). -/
theorem c4_witness :
    (abstractEvalUnary c4Image (.I32Load ⟨0, 0⟩)
        (.Concrete (.I32 0x1000) ValueTags.constMemoryTag) ⟨0, ⟨[], .None⟩⟩).1 =
      .Concrete (.I32 (zext 32 0x04030201)) ValueTags.constMemoryTag :=
  ((c4_load_folding ⟨0, 0⟩).1 c4Image (.Concrete (.I32 0x1000) ValueTags.constMemoryTag)
      ⟨0, ⟨[], .None⟩⟩).2.1 0x1000 ValueTags.constMemoryTag 0x04030201 rfl rfl (by decide)

/-- A result of the shape (if G then Concrete else Runtime(default)) is a
constant exactly when the guard holds. -/
theorem foldGuardSpec (G : Prop) [Decidable G] (res : AbstractValue) (w0 : WasmVal)
    (u0 : ValueTags)
    (hred : res = if G then .Concrete w0 u0 else .Runtime ValueTags.default) :
    ((∃ w u, res = .Concrete w u) ↔ G) ∧ (¬G → res = .Runtime ValueTags.default) := by
  subst hred
  refine ⟨⟨?_, ?_⟩, ?_⟩
  · rintro ⟨w, u, hw⟩
    by_cases hg : G
    · exact hg
    · rw [if_neg hg] at hw
      exact absurd hw (by simp)
  · intro hg
    rw [if_pos hg]
    exact ⟨w0, u0, rfl⟩
  · intro hg
    rw [if_neg hg]

/-- C5: the division and remainder operators fold on concrete operand
pairs exactly under their guards: non-zero divisor, and for the signed
variants also not the (INT_MIN, -1) pair; when a guard fails the result
is Runtime(default). A runtime operand (in particular a runtime dividend
with a concrete zero divisor) always yields Runtime(default), and a
runtime result re-emits the original operator as the residual form, so
the folding code never divides by zero and never performs an overflowing
signed division. -/
theorem c5_div_rem_guards :
    (∀ k1 k2 t1 t2,
      ((∃ w u, abstractEvalBinary .I32DivU (.Concrete (.I32 k1) t1) (.Concrete (.I32 k2) t2)
          = .Concrete w u) ↔ k2 ≠ 0) ∧
      (¬k2 ≠ 0 → abstractEvalBinary .I32DivU (.Concrete (.I32 k1) t1) (.Concrete (.I32 k2) t2)
          = .Runtime ValueTags.default)) ∧
    (∀ k1 k2 t1 t2,
      ((∃ w u, abstractEvalBinary .I32DivS (.Concrete (.I32 k1) t1) (.Concrete (.I32 k2) t2)
          = .Concrete w u) ↔ k2 ≠ 0 ∧ (k1 ≠ 0x80000000 ∨ k2 ≠ 0xffffffff)) ∧
      (¬(k2 ≠ 0 ∧ (k1 ≠ 0x80000000 ∨ k2 ≠ 0xffffffff)) →
        abstractEvalBinary .I32DivS (.Concrete (.I32 k1) t1) (.Concrete (.I32 k2) t2)
          = .Runtime ValueTags.default)) ∧
    (∀ k1 k2 t1 t2,
      ((∃ w u, abstractEvalBinary .I32RemU (.Concrete (.I32 k1) t1) (.Concrete (.I32 k2) t2)
          = .Concrete w u) ↔ k2 ≠ 0) ∧
      (¬k2 ≠ 0 → abstractEvalBinary .I32RemU (.Concrete (.I32 k1) t1) (.Concrete (.I32 k2) t2)
          = .Runtime ValueTags.default)) ∧
    (∀ k1 k2 t1 t2,
      ((∃ w u, abstractEvalBinary .I32RemS (.Concrete (.I32 k1) t1) (.Concrete (.I32 k2) t2)
          = .Concrete w u) ↔ k2 ≠ 0 ∧ (k1 ≠ 0x80000000 ∨ k2 ≠ 0xffffffff)) ∧
      (¬(k2 ≠ 0 ∧ (k1 ≠ 0x80000000 ∨ k2 ≠ 0xffffffff)) →
        abstractEvalBinary .I32RemS (.Concrete (.I32 k1) t1) (.Concrete (.I32 k2) t2)
          = .Runtime ValueTags.default)) ∧
    (∀ k1 k2 t1 t2,
      ((∃ w u, abstractEvalBinary .I64DivU (.Concrete (.I64 k1) t1) (.Concrete (.I64 k2) t2)
          = .Concrete w u) ↔ k2 ≠ 0) ∧
      (¬k2 ≠ 0 → abstractEvalBinary .I64DivU (.Concrete (.I64 k1) t1) (.Concrete (.I64 k2) t2)
          = .Runtime ValueTags.default)) ∧
    (∀ k1 k2 t1 t2,
      ((∃ w u, abstractEvalBinary .I64DivS (.Concrete (.I64 k1) t1) (.Concrete (.I64 k2) t2)
          = .Concrete w u) ↔
        k2 ≠ 0 ∧ (k1 ≠ 0x8000000000000000 ∨ k2 ≠ 0xffffffffffffffff)) ∧
      (¬(k2 ≠ 0 ∧ (k1 ≠ 0x8000000000000000 ∨ k2 ≠ 0xffffffffffffffff)) →
        abstractEvalBinary .I64DivS (.Concrete (.I64 k1) t1) (.Concrete (.I64 k2) t2)
          = .Runtime ValueTags.default)) ∧
    (∀ k1 k2 t1 t2,
      ((∃ w u, abstractEvalBinary .I64RemU (.Concrete (.I64 k1) t1) (.Concrete (.I64 k2) t2)
          = .Concrete w u) ↔ k2 ≠ 0) ∧
      (¬k2 ≠ 0 → abstractEvalBinary .I64RemU (.Concrete (.I64 k1) t1) (.Concrete (.I64 k2) t2)
          = .Runtime ValueTags.default)) ∧
    (∀ k1 k2 t1 t2,
      ((∃ w u, abstractEvalBinary .I64RemS (.Concrete (.I64 k1) t1) (.Concrete (.I64 k2) t2)
          = .Concrete w u) ↔
        k2 ≠ 0 ∧ (k1 ≠ 0x8000000000000000 ∨ k2 ≠ 0xffffffffffffffff)) ∧
      (¬(k2 ≠ 0 ∧ (k1 ≠ 0x8000000000000000 ∨ k2 ≠ 0xffffffffffffffff)) →
        abstractEvalBinary .I64RemS (.Concrete (.I64 k1) t1) (.Concrete (.I64 k2) t2)
          = .Runtime ValueTags.default)) ∧
    (∀ (op : Op) (t : ValueTags) (y : AbstractValue),
      abstractEvalBinary op (.Runtime t) y = .Runtime ValueTags.default) ∧
    (∀ (op : Op) (args : List Value) (tys : List Ty) (t : ValueTags),
      residualForm none (.Runtime t) op args tys =
        some (.Operator op args tys, .Runtime t)) := by
  refine ⟨?_, ?_, ?_, ?_, ?_, ?_, ?_, ?_, ?_, ?_⟩
  · intro k1 k2 t1 t2
    exact foldGuardSpec (k2 ≠ 0) _ (.I32 (k1 / k2)) (t1.meet t2) rfl
  · intro k1 k2 t1 t2
    exact foldGuardSpec (k2 ≠ 0 ∧ (k1 ≠ 0x80000000 ∨ k2 ≠ 0xffffffff)) _
      (.I32 (ofSigned 32 ((toSigned 32 k1).tdiv (toSigned 32 k2)))) (t1.meet t2) rfl
  · intro k1 k2 t1 t2
    exact foldGuardSpec (k2 ≠ 0) _ (.I32 (k1 % k2)) (t1.meet t2) rfl
  · intro k1 k2 t1 t2
    exact foldGuardSpec (k2 ≠ 0 ∧ (k1 ≠ 0x80000000 ∨ k2 ≠ 0xffffffff)) _
      (.I32 (ofSigned 32 ((toSigned 32 k1).tmod (toSigned 32 k2)))) (t1.meet t2) rfl
  · intro k1 k2 t1 t2
    exact foldGuardSpec (k2 ≠ 0) _ (.I64 (k1 / k2)) (t1.meet t2) rfl
  · intro k1 k2 t1 t2
    exact foldGuardSpec (k2 ≠ 0 ∧ (k1 ≠ 0x8000000000000000 ∨ k2 ≠ 0xffffffffffffffff)) _
      (.I64 (ofSigned 64 ((toSigned 64 k1).tdiv (toSigned 64 k2)))) (t1.meet t2) rfl
  · intro k1 k2 t1 t2
    exact foldGuardSpec (k2 ≠ 0) _ (.I64 (k1 % k2)) (t1.meet t2) rfl
  · intro k1 k2 t1 t2
    exact foldGuardSpec (k2 ≠ 0 ∧ (k1 ≠ 0x8000000000000000 ∨ k2 ≠ 0xffffffffffffffff)) _
      (.I64 (ofSigned 64 ((toSigned 64 k1).tmod (toSigned 64 k2)))) (t1.meet t2) rfl
  · intro op t y
    cases y <;> rfl
  · intro op args tys t
    rfl

/-- C5 witness: a runtime dividend with a concrete zero divisor is not
folded and the original divide is re-emitted, and the concrete pair
(5, 0) is not folded either. -/
theorem c5_witness :
    abstractEvalBinary .I32DivU (.Concrete (.I32 5) ValueTags.default)
        (.Concrete (.I32 0) ValueTags.default) = .Runtime ValueTags.default ∧
    abstractEvalBinary .I32DivU (.Runtime ValueTags.default)
        (.Concrete (.I32 0) ValueTags.default) = .Runtime ValueTags.default ∧
    residualForm none (.Runtime ValueTags.default) .I32DivU [1, 2] [.I32] =
      some (.Operator .I32DivU [1, 2] [.I32], .Runtime ValueTags.default) :=
  ⟨(c5_div_rem_guards.1 5 0 ValueTags.default ValueTags.default).2 (by decide),
   c5_div_rem_guards.2.2.2.2.2.2.2.2.1 .I32DivU ValueTags.default
     (.Concrete (.I32 0) ValueTags.default),
   c5_div_rem_guards.2.2.2.2.2.2.2.2.2 .I32DivU [1, 2] [.I32] ValueTags.default⟩

/-- A bit mask by an all-ones pattern is a remainder. -/
theorem and_mask_eq_mod (k n : Nat) : k &&& (2 ^ n - 1) = k % 2 ^ n := by
  apply Nat.eq_of_testBit_eq
  intro i
  rw [Nat.testBit_and, Nat.testBit_two_pow_sub_one, Nat.testBit_mod_two_pow]
  exact Bool.and_comm ..

/-- The five-bit mask used by the 32-bit shift and rotate arms. -/
theorem and31_eq_mod32 (k : Nat) : k &&& 31 = k % 32 := by
  have h := and_mask_eq_mod k 5
  norm_num at h
  exact h

/-- The six-bit mask used by the 64-bit shift and rotate arms. -/
theorem and63_eq_mod64 (k : Nat) : k &&& 63 = k % 64 := by
  have h := and_mask_eq_mod k 6
  norm_num at h
  exact h

/-- The shift+or formula of the rotate-left arms equals the rotation, for
every masked amount including zero. -/
theorem rotl_formula (w k amt : Nat) (hw : 0 < w) (hk : k < 2 ^ w) (ha : amt < w) :
    wrappingShl w k amt ||| wrappingShr w k (w - amt) = rotLeft w k amt := by
  unfold wrappingShl wrappingShr rotLeft
  rcases Nat.eq_zero_or_pos amt with h0 | hpos
  · subst h0
    simp [Nat.mod_self, Nat.shiftLeft_eq, Nat.shiftRight_eq_div_pow,
      Nat.mod_eq_of_lt hk, Nat.div_eq_of_lt hk]
  · rw [Nat.mod_eq_of_lt ha, Nat.mod_eq_of_lt (Nat.sub_lt hw hpos)]

/-- The shift+or formula of the rotate-right arms equals the rotation, for
every masked amount including zero. -/
theorem rotr_formula (w k amt : Nat) (hw : 0 < w) (hk : k < 2 ^ w) (ha : amt < w) :
    wrappingShr w k amt ||| wrappingShl w k (w - amt) = rotRight w k amt := by
  unfold wrappingShl wrappingShr rotRight
  rcases Nat.eq_zero_or_pos amt with h0 | hpos
  · subst h0
    simp [Nat.mod_self, Nat.shiftLeft_eq, Nat.shiftRight_eq_div_pow,
      Nat.mod_eq_of_lt hk, Nat.div_eq_of_lt hk]
  · rw [Nat.mod_eq_of_lt ha, Nat.mod_eq_of_lt (Nat.sub_lt hw hpos)]

/-- Rotation only depends on the amount modulo the width. -/
theorem rotLeft_mod (w k r : Nat) : rotLeft w k (r % w) = rotLeft w k r := by
  unfold rotLeft
  rw [Nat.mod_mod_of_dvd r dvd_rfl]

/-- Rotation only depends on the amount modulo the width. -/
theorem rotRight_mod (w k r : Nat) : rotRight w k (r % w) = rotRight w k r := by
  unfold rotRight
  rw [Nat.mod_mod_of_dvd r dvd_rfl]

/-- C8: folding I32Rotl/I32Rotr on concrete pairs yields the 32-bit
rotation of k1 by k2 mod 32 with meet of the tags, and I64Rotl/I64Rotr
the 64-bit rotation by k2 mod 64; the shift+or formula agrees with the
rotation also when the masked amount is zero, where the rotation is the
identity. -/
theorem c8_rotations :
    (∀ k1 k2 t1 t2, k1 < 2 ^ 32 → k2 < 2 ^ 32 →
      abstractEvalBinary .I32Rotl (.Concrete (.I32 k1) t1) (.Concrete (.I32 k2) t2) =
        .Concrete (.I32 (rotLeft 32 k1 k2)) (t1.meet t2)) ∧
    (∀ k1 k2 t1 t2, k1 < 2 ^ 32 → k2 < 2 ^ 32 →
      abstractEvalBinary .I32Rotr (.Concrete (.I32 k1) t1) (.Concrete (.I32 k2) t2) =
        .Concrete (.I32 (rotRight 32 k1 k2)) (t1.meet t2)) ∧
    (∀ k1 k2 t1 t2, k1 < 2 ^ 64 → k2 < 2 ^ 64 →
      abstractEvalBinary .I64Rotl (.Concrete (.I64 k1) t1) (.Concrete (.I64 k2) t2) =
        .Concrete (.I64 (rotLeft 64 k1 k2)) (t1.meet t2)) ∧
    (∀ k1 k2 t1 t2, k1 < 2 ^ 64 → k2 < 2 ^ 64 →
      abstractEvalBinary .I64Rotr (.Concrete (.I64 k1) t1) (.Concrete (.I64 k2) t2) =
        .Concrete (.I64 (rotRight 64 k1 k2)) (t1.meet t2)) ∧
    (∀ k, k < 2 ^ 32 → rotLeft 32 k 0 = k ∧ rotRight 32 k 0 = k) := by
  refine ⟨?_, ?_, ?_, ?_, ?_⟩
  · intro k1 k2 t1 t2 h1 h2
    have hred : abstractEvalBinary .I32Rotl (.Concrete (.I32 k1) t1) (.Concrete (.I32 k2) t2) =
        .Concrete (.I32 (wrappingShl 32 k1 (k2 &&& 31) |||
          wrappingShr 32 k1 (32 - (k2 &&& 31)))) (t1.meet t2) := rfl
    rw [hred, and31_eq_mod32,
      rotl_formula 32 k1 (k2 % 32) (by norm_num) h1 (Nat.mod_lt k2 (by norm_num)),
      rotLeft_mod]
  · intro k1 k2 t1 t2 h1 h2
    have hred : abstractEvalBinary .I32Rotr (.Concrete (.I32 k1) t1) (.Concrete (.I32 k2) t2) =
        .Concrete (.I32 (wrappingShr 32 k1 (k2 &&& 31) |||
          wrappingShl 32 k1 (32 - (k2 &&& 31)))) (t1.meet t2) := rfl
    rw [hred, and31_eq_mod32,
      rotr_formula 32 k1 (k2 % 32) (by norm_num) h1 (Nat.mod_lt k2 (by norm_num)),
      rotRight_mod]
  · intro k1 k2 t1 t2 h1 h2
    have hred : abstractEvalBinary .I64Rotl (.Concrete (.I64 k1) t1) (.Concrete (.I64 k2) t2) =
        .Concrete (.I64 (wrappingShl 64 k1 (k2 &&& 63) |||
          wrappingShr 64 k1 (64 - (k2 &&& 63)))) (t1.meet t2) := rfl
    rw [hred, and63_eq_mod64,
      rotl_formula 64 k1 (k2 % 64) (by norm_num) h1 (Nat.mod_lt k2 (by norm_num)),
      rotLeft_mod]
  · intro k1 k2 t1 t2 h1 h2
    have hred : abstractEvalBinary .I64Rotr (.Concrete (.I64 k1) t1) (.Concrete (.I64 k2) t2) =
        .Concrete (.I64 (wrappingShr 64 k1 (k2 &&& 63) |||
          wrappingShl 64 k1 (64 - (k2 &&& 63)))) (t1.meet t2) := rfl
    rw [hred, and63_eq_mod64,
      rotr_formula 64 k1 (k2 % 64) (by norm_num) h1 (Nat.mod_lt k2 (by norm_num)),
      rotRight_mod]
  · intro k hk
    have h1 : k % 2 ^ 32 = k := Nat.mod_eq_of_lt hk
    have h2 : k / 2 ^ 32 = 0 := Nat.div_eq_of_lt hk
    norm_num at h1 h2
    constructor
    · simp [rotLeft, Nat.shiftLeft_eq, Nat.shiftRight_eq_div_pow, h1, h2]
    · simp [rotRight, Nat.shiftLeft_eq, Nat.shiftRight_eq_div_pow, h1, h2]

/-- C8 witness: concrete rotations, including a masked amount of zero. -/
theorem c8_witness :
    abstractEvalBinary .I32Rotl (.Concrete (.I32 0x12345678) ValueTags.default)
        (.Concrete (.I32 4) ValueTags.constMemoryTag) =
      .Concrete (.I32 (rotLeft 32 0x12345678 4))
        (ValueTags.default.meet ValueTags.constMemoryTag) ∧
    abstractEvalBinary .I32Rotl (.Concrete (.I32 0x12345678) ValueTags.default)
        (.Concrete (.I32 32) ValueTags.default) =
      .Concrete (.I32 (rotLeft 32 0x12345678 32))
        (ValueTags.default.meet ValueTags.default) :=
  ⟨c8_rotations.1 0x12345678 4 ValueTags.default ValueTags.constMemoryTag
      (by norm_num) (by norm_num),
   c8_rotations.1 0x12345678 32 ValueTags.default ValueTags.default
      (by norm_num) (by norm_num)⟩

/-- C6: a CondBr whose condition has a constant abstract value with
truthiness b is rewritten to an unconditional Br to the ifTrue target
when b is true and to ifFalse when b is false, evaluating only that
target; a non-constant condition emits a CondBr on the specialized
condition with both targets evaluated. -/
theorem c6_condbr_folding (E : Evaluator) (origBlock : Block) (st : PointState)
    (newBlock : Block) (cond : Value) (ifTrue ifFalse : BlockTarget)
    (uvr : Evaluator × Value × AbstractValue)
    (hterm : (E.generic.getBlock origBlock).terminator = .CondBr cond ifTrue ifFalse)
    (huse : useValue E st.context origBlock cond = some uvr) :
    (uvr.2.2.isConstTruthy = some true →
      evaluateTerm E origBlock st newBlock =
        (evaluateBlockTarget uvr.1 origBlock st ifTrue).map
          (fun p => { p.1 with func := p.1.func.setTerminator newBlock (.Br p.2) })) ∧
    (uvr.2.2.isConstTruthy = some false →
      evaluateTerm E origBlock st newBlock =
        (evaluateBlockTarget uvr.1 origBlock st ifFalse).map
          (fun p => { p.1 with func := p.1.func.setTerminator newBlock (.Br p.2) })) ∧
    (uvr.2.2.isConstTruthy = none →
      evaluateTerm E origBlock st newBlock =
        (evaluateBlockTarget uvr.1 origBlock st ifTrue).bind (fun p1 =>
          (evaluateBlockTarget p1.1 origBlock st ifFalse).map (fun p2 =>
            { p2.1 with
                func := p2.1.func.setTerminator newBlock (.CondBr uvr.2.1 p1.2 p2.2) }))) := by
  obtain ⟨E1, condv, absCond⟩ := uvr
  refine ⟨?_, ?_, ?_⟩ <;> intro hc <;>
    · unfold evaluateTerm
      rw [hterm]
      simp only [huse, hc, Option.bind_eq_bind, Option.some_bind]
      first
      | (cases hX : evaluateBlockTarget E1 origBlock st ifTrue with
         | none => rfl
         | some p =>
             cases p with
             | mk E2 t =>
                 simp only [Option.some_bind]
                 cases hY : evaluateBlockTarget E2 origBlock st ifFalse with
                 | none => rfl
                 | some q => cases q with | mk E3 t2 => rfl)
      | (cases hX : evaluateBlockTarget E1 origBlock st ifFalse with
         | none => rfl
         | some p => cases p with | mk E2 t => rfl)

/-- C6 witness: the concrete CondBr on Concrete(I32 1) rewrites to a Br
to the ifTrue target. -/
theorem c6_witness :
    evaluateTerm c6Eval 0 ⟨0, ⟨[], .None⟩⟩ 0 =
      (evaluateBlockTarget (useValue c6Eval 0 0 0).get!.1 0 ⟨0, ⟨[], .None⟩⟩ ⟨1, []⟩).map
        (fun p => { p.1 with func := p.1.func.setTerminator 0 (.Br p.2) }) :=
  (c6_condbr_folding c6Eval 0 ⟨0, ⟨[], .None⟩⟩ 0 0 ⟨1, []⟩ ⟨2, []⟩
      ((useValue c6Eval 0 0 0).get!) rfl rfl).1 rfl

/-- C7: a Select whose selector has a concrete u32 abstract value k is
rewritten to an unconditional Br to targets[k] when k is in range and to
the default target otherwise, evaluating only that target; a non-constant
selector emits a Select on the specialized value with every target and
the default evaluated. -/
theorem c7_select_folding (E : Evaluator) (origBlock : Block) (st : PointState)
    (newBlock : Block) (value : Value) (targets : List BlockTarget)
    (defaultTarget : BlockTarget) (uvr : Evaluator × Value × AbstractValue)
    (hterm : (E.generic.getBlock origBlock).terminator = .Select value targets defaultTarget)
    (huse : useValue E st.context origBlock value = some uvr) :
    (∀ k (hk : k < targets.length), uvr.2.2.isConstU32 = some k →
      evaluateTerm E origBlock st newBlock =
        (evaluateBlockTarget uvr.1 origBlock st (targets.get ⟨k, hk⟩)).map
          (fun p => { p.1 with func := p.1.func.setTerminator newBlock (.Br p.2) })) ∧
    (∀ k, targets.length ≤ k → uvr.2.2.isConstU32 = some k →
      evaluateTerm E origBlock st newBlock =
        (evaluateBlockTarget uvr.1 origBlock st defaultTarget).map
          (fun p => { p.1 with func := p.1.func.setTerminator newBlock (.Br p.2) })) ∧
    (uvr.2.2.isConstU32 = none →
      evaluateTerm E origBlock st newBlock =
        (evalTargets uvr.1 origBlock st targets).bind (fun pts =>
          (evaluateBlockTarget pts.1 origBlock st defaultTarget).map (fun pd =>
            { pd.1 with
                func := pd.1.func.setTerminator newBlock (.Select uvr.2.1 pts.2 pd.2) }))) := by
  obtain ⟨E1, valuev, absValue⟩ := uvr
  refine ⟨?_, ?_, ?_⟩
  · intro k hk hc
    unfold evaluateTerm
    rw [hterm]
    simp only [huse, hc, Option.bind_eq_bind, Option.some_bind]
    rw [List.getD_eq_get?, List.get?_eq_get hk]
    simp only [Option.getD_some]
    cases hX : evaluateBlockTarget E1 origBlock st (targets.get ⟨k, hk⟩) with
    | none => rfl
    | some p => cases p with | mk E2 t => rfl
  · intro k hk hc
    unfold evaluateTerm
    rw [hterm]
    simp only [huse, hc, Option.bind_eq_bind, Option.some_bind]
    rw [List.getD_eq_get?, List.get?_eq_none.mpr hk]
    simp only [Option.getD_none]
    cases hX : evaluateBlockTarget E1 origBlock st defaultTarget with
    | none => rfl
    | some p => cases p with | mk E2 t => rfl
  · intro hc
    unfold evaluateTerm
    rw [hterm]
    simp only [huse, hc, Option.bind_eq_bind, Option.some_bind]
    cases hX : evalTargets E1 origBlock st targets with
    | none => rfl
    | some p =>
        cases p with
        | mk E2 ts =>
            simp only [Option.some_bind]
            cases hY : evaluateBlockTarget E2 origBlock st defaultTarget with
            | none => rfl
            | some q => cases q with | mk E3 d => rfl

/-- C7 witness: the concrete Select on Concrete(I32 0) with one target
rewrites to a Br to targets[0]. -/
theorem c7_witness :
    evaluateTerm c7Eval 0 ⟨0, ⟨[], .None⟩⟩ 0 =
      (evaluateBlockTarget (useValue c7Eval 0 0 0).get!.1 0 ⟨0, ⟨[], .None⟩⟩ ⟨1, []⟩).map
        (fun p => { p.1 with func := p.1.func.setTerminator 0 (.Br p.2) }) :=
  (c7_select_folding c7Eval 0 ⟨0, ⟨[], .None⟩⟩ 0 0 [⟨1, []⟩] ⟨2, []⟩
      ((useValue c7Eval 0 0 0).get!) rfl rfl).1 0 (by norm_num) rfl

end Weval
